import Mathlib

/-!
Verification of the control-flow component library (react-solidlike).

The TypeScript sources are shallowly embedded: JavaScript runtime values are
modelled by the inductive type `JSValue`, rendered output by `Node`, and each
component is a Lean function mirroring the corresponding source function
line by line.  Stateful components (Await, Visible) become explicit state
machines driven by event lists.
-/

namespace ReactSolid

/-- React keys are strings or numbers. -/
inductive Key where
  | str (s : String)
  | num (n : Int)
deriving DecidableEq, Repr

/-- Rendered output values (ReactNode).  A `fragment` is a keyed Fragment
wrapper as produced by For and Repeat; `listN` is a flat array of nodes;
`tag` is a host element with attributes and an optional key. -/
inductive Node where
  | nullN
  | text (s : String)
  | tag (name : String) (attrs : List (String × String)) (key : Option Key)
        (children : List Node)
  | fragment (key : Key) (child : Node)
  | listN (ns : List Node)
deriving Repr

/-- JavaScript runtime values, with just enough structure for the truthiness
and emptiness predicates of the library: primitives, arrays, Map and Set
instances (carrying their entries), and other objects.  For a generic object
we record whether its prototype is `Object.prototype` (a plain object) and
its own enumerable keys. -/
inductive JSValue where
  | vNull
  | vUndefined
  | vBool (b : Bool)
  | vNum (n : Int)
  | vNaN
  | vStr (s : String)
  | vArray (elems : List JSValue)
  | vMapObj (entries : List (JSValue × JSValue))
  | vSetObj (elems : List JSValue)
  | vObj (plainProto : Bool) (ownKeys : List String)
deriving Repr

/-- Plain JavaScript boolean coercion (the `!value` test): null, undefined,
false, 0, NaN and the empty string are falsy; every object (including empty
arrays, Maps, Sets and plain objects) is truthy. -/
def jsTruthy : JSValue → Bool
  | .vNull => false
  | .vUndefined => false
  | .vBool b => b
  | .vNum n => !(n == 0)
  | .vNaN => false
  | .vStr s => !s.isEmpty
  | .vArray _ => true
  | .vMapObj _ => true
  | .vSetObj _ => true
  | .vObj _ _ => true

/-- Embedding of `isEmpty` from Show.tsx:
`Array.isArray(value)` yields length check; `value instanceof Map || value
instanceof Set` yields size check; an object whose prototype is
`Object.prototype` yields an own-key count check; everything else is not
empty. -/
def isEmpty : JSValue → Bool
  | .vArray elems => elems.isEmpty
  | .vMapObj entries => entries.isEmpty
  | .vSetObj elems => elems.isEmpty
  | .vObj true ownKeys => ownKeys.isEmpty
  | _ => false

/-- A render prop: either a fixed node or a function of the condition value
(the `typeof children === "function"` branch). -/
inductive Rendable where
  | node (n : Node)
  | fn (f : JSValue → Node)

/-- Apply a render prop to a value, as the components do. -/
def applyRendable : Rendable → JSValue → Node
  | .node n, _ => n
  | .fn f, v => f v

/-- A `ResolvableNode` from utils.ts: a node or a thunk producing one. -/
inductive ResolvableNode where
  | node (n : Node)
  | thunk (f : Unit → Node)

/-- `resolveNode` from utils.ts. -/
def resolveNode : ResolvableNode → Node
  | .node n => n
  | .thunk f => f ()

/-- Embedding of the Show component from Show.tsx:
`if (!when || isEmpty(when)) return fallback;` then render children,
invoking a function child with the condition value. -/
def Show (cond : JSValue) (children : Rendable) (fallback : Node) : Node :=
  if !jsTruthy cond || isEmpty cond then fallback
  else applyRendable children cond

/-- The falsiness predicate exactly as the claim enumerates it: null,
undefined, 0, NaN, the empty string and any other falsy primitive; a
zero-length sequence; a zero-size Map or Set; a plain object with zero own
keys.  Everything else is truthy. -/
def claimFalsyC6 : JSValue → Bool
  | .vNull => true
  | .vUndefined => true
  | .vBool b => !b
  | .vNum n => n == 0
  | .vNaN => true
  | .vStr s => s.isEmpty
  | .vArray elems => elems.isEmpty
  | .vMapObj entries => entries.isEmpty
  | .vSetObj elems => elems.isEmpty
  | .vObj true ownKeys => ownKeys.isEmpty
  | .vObj false _ => false

end ReactSolid

namespace ReactSolid

/-- Claim C6: Show renders its fallback exactly when the condition is falsy
by the library predicate (null, undefined, 0, NaN, empty string, any other
falsy primitive, a zero-length sequence, a zero-size Map or Set, or a plain
object with zero own keys), and otherwise renders children, invoking a
function child with the condition value.  Because the equation holds for
every `children`, a function child is never invoked on the falsy side. -/
theorem c6_show_truthiness (cond : JSValue) (children : Rendable) (fallback : Node) :
    Show cond children fallback =
      if claimFalsyC6 cond then fallback else applyRendable children cond := by
  cases cond with
  | vBool b => cases b <;> rfl
  | vNum n =>
      simp only [Show, jsTruthy, claimFalsyC6]
      by_cases h : n = 0 <;> simp [h, isEmpty]
  | vStr s =>
      simp only [Show, jsTruthy, claimFalsyC6]
      by_cases h : s.isEmpty <;> simp [h, isEmpty]
  | vArray elems =>
      simp only [Show, jsTruthy, claimFalsyC6]
      by_cases h : elems.isEmpty <;> simp [h, isEmpty]
  | vMapObj entries =>
      simp only [Show, jsTruthy, claimFalsyC6]
      by_cases h : entries.isEmpty <;> simp [h, isEmpty]
  | vSetObj elems =>
      simp only [Show, jsTruthy, claimFalsyC6]
      by_cases h : elems.isEmpty <;> simp [h, isEmpty]
  | vObj plainProto ownKeys =>
      cases plainProto with
      | true =>
          simp only [Show, jsTruthy, claimFalsyC6]
          by_cases h : ownKeys.isEmpty <;> simp [h, isEmpty]
      | false => rfl
  | _ => rfl

/-! ## Switch / Match / Default (Switch.tsx) -/

/-- A child of Switch as the component classifies them: a Match element
(carrying its `when` condition and payload), a Default element (carrying its
content), or any other content, which the walk ignores. -/
inductive SwitchChild where
  | matchE (cond : JSValue) (payload : Rendable)
  | defaultE (content : Node)
  | otherE (n : Node)

/-- The walk inside Switch, with `acc` the current default content:
a Default entry overwrites `acc` and continues; a Match entry with a truthy
condition (the plain `if (when)` test) returns its payload, invoking a
function payload with the condition value; anything else continues. -/
def switchGo (acc : Node) : List SwitchChild → Node
  | [] => acc
  | .defaultE content :: rest => switchGo content rest
  | .matchE cond payload :: rest =>
      if jsTruthy cond then applyRendable payload cond else switchGo acc rest
  | .otherE _ :: rest => switchGo acc rest

/-- Embedding of the Switch component from Switch.tsx: the default content
starts as the resolved `fallback` prop, then the children are walked in
declaration order. -/
def Switch (children : List SwitchChild) (fallback : ResolvableNode) : Node :=
  switchGo (resolveNode fallback) children

/-- Whether a Switch child is a Match entry whose condition the code
considers truthy. -/
def isWinningMatch : SwitchChild → Bool
  | .matchE cond _ => jsTruthy cond
  | _ => false

/-- One step of collecting the last Default content. -/
def lastDefaultStep (acc : Option Node) : SwitchChild → Option Node
  | .defaultE content => some content
  | _ => acc

/-- The content of the last Default entry of the list, if any. -/
def lastDefault (children : List SwitchChild) : Option Node :=
  children.foldl lastDefaultStep none

theorem lastDefault_foldl (children : List SwitchChild) (b : Option Node) :
    children.foldl lastDefaultStep b = (lastDefault children).elim b some := by
  induction children generalizing b with
  | nil => rfl
  | cons child rest ih =>
      cases child with
      | matchE cond payload =>
          show rest.foldl lastDefaultStep b = (rest.foldl lastDefaultStep none).elim b some
          exact ih b
      | otherE n =>
          show rest.foldl lastDefaultStep b = (rest.foldl lastDefaultStep none).elim b some
          exact ih b
      | defaultE content =>
          show rest.foldl lastDefaultStep (some content)
              = (rest.foldl lastDefaultStep (some content)).elim b some
          rw [ih (some content)]
          cases lastDefault rest <;> rfl

/-- The Switch behaviour as claim C3 states it: the first Match child in
declaration order with a truthy condition renders its payload; if none
matches, the last declared Default renders (else the fallback prop, else
nothing). -/
def switchClaimC3 (children : List SwitchChild) (fallback : Node) : Node :=
  match children.find? isWinningMatch with
  | some (.matchE cond payload) => applyRendable payload cond
  | _ => (lastDefault children).getD fallback

theorem switchGo_eq_claim (children : List SwitchChild) (acc : Node) :
    switchGo acc children = switchClaimC3 children acc := by
  induction children generalizing acc with
  | nil => rfl
  | cons child rest ih =>
      cases child with
      | matchE cond payload =>
          by_cases h : jsTruthy cond
          · simp [switchGo, h, switchClaimC3, List.find?, isWinningMatch]
          · rw [switchGo, if_neg (by simp [h]), ih]
            simp only [switchClaimC3, List.find?, isWinningMatch, h,
              lastDefault, List.foldl_cons, lastDefaultStep]
      | defaultE content =>
          rw [switchGo, ih]
          have hfind : (SwitchChild.defaultE content :: rest).find? isWinningMatch
              = rest.find? isWinningMatch := by
            simp [List.find?, isWinningMatch]
          have hlast : lastDefault (SwitchChild.defaultE content :: rest)
              = (lastDefault rest).elim (some content) some := by
            show rest.foldl lastDefaultStep (some content) = _
            exact lastDefault_foldl rest (some content)
          cases hf : rest.find? isWinningMatch with
          | some c =>
              have hc := List.find?_some hf
              cases c with
              | matchE cond payload => simp only [switchClaimC3, hf, hfind]
              | defaultE x => simp [isWinningMatch] at hc
              | otherE x => simp [isWinningMatch] at hc
          | none =>
              simp only [switchClaimC3, hf, hfind, hlast]
              cases lastDefault rest <;> rfl
      | otherE n =>
          rw [switchGo, ih]
          simp only [switchClaimC3, List.find?, isWinningMatch,
            lastDefault, List.foldl_cons, lastDefaultStep]

/-- Claim C3: the first Match child in declaration order whose condition is
truthy has its payload rendered, and the entries after it never influence
the result; if no Match condition is truthy, the last declared Default
content is rendered, else the fallback prop, else nothing.  The first
conjunct is the full characterisation; the second makes the winner's
independence from everything after it (later Match and Default children)
explicit. -/
theorem c3_switch_first_match :
    (∀ (children : List SwitchChild) (fallback : ResolvableNode),
       Switch children fallback = switchClaimC3 children (resolveNode fallback))
    ∧ (∀ (pre : List SwitchChild) (cond : JSValue) (payload : Rendable)
         (post : List SwitchChild) (fallback : ResolvableNode),
       (∀ c ∈ pre, isWinningMatch c = false) → jsTruthy cond = true →
       Switch (pre ++ SwitchChild.matchE cond payload :: post) fallback =
         applyRendable payload cond) := by
  constructor
  · intro children fallback
    exact switchGo_eq_claim children (resolveNode fallback)
  · intro pre cond payload post fallback hpre hcond
    rw [Switch, switchGo_eq_claim, switchClaimC3]
    have h1 : pre.find? isWinningMatch = none := by
      rw [List.find?_eq_none]
      intro x hx
      simp [hpre x hx]
    have h2 : (pre ++ SwitchChild.matchE cond payload :: post).find? isWinningMatch
        = some (SwitchChild.matchE cond payload) := by
      rw [List.find?_append, h1, Option.none_or]
      exact List.find?_cons_of_pos _ (by simp [isWinningMatch, hcond])
    rw [h2]

/-- Witness for c3_switch_first_match: among conditions false, true, true
only the second Match renders, a later Default is ignored, and the walk
never looks past the winner. -/
theorem c3_switch_first_match_witness :
    Switch
      [SwitchChild.matchE (JSValue.vBool false) (Rendable.node (Node.text "first")),
       SwitchChild.matchE (JSValue.vBool true) (Rendable.node (Node.text "second")),
       SwitchChild.matchE (JSValue.vBool true) (Rendable.node (Node.text "third")),
       SwitchChild.defaultE (Node.text "dflt")]
      (ResolvableNode.node Node.nullN) = Node.text "second" :=
  c3_switch_first_match.2
    [SwitchChild.matchE (JSValue.vBool false) (Rendable.node (Node.text "first"))]
    (JSValue.vBool true) (Rendable.node (Node.text "second"))
    [SwitchChild.matchE (JSValue.vBool true) (Rendable.node (Node.text "third")),
     SwitchChild.defaultE (Node.text "dflt")]
    (ResolvableNode.node Node.nullN)
    (by intro c hc; simp at hc; subst hc; rfl)
    rfl

/-- Claim C4 counterexample: Switch selects a Match whose condition is an
empty array, because the source tests `if (when)` with plain JavaScript
truthiness (Switch.tsx line 142) and never consults Show's emptiness
predicate; the claim says such a Match is not selected (which would render
the fallback instead). -/
theorem c4_switch_empty_array_selected :
    Switch
      [SwitchChild.matchE (JSValue.vArray []) (Rendable.node (Node.text "picked"))]
      (ResolvableNode.node (Node.text "fb")) = Node.text "picked"
    ∧ Node.text "picked" ≠ Node.text "fb" := by
  refine ⟨rfl, ?_⟩
  intro h
  injection h with h1
  exact absurd h1 (by decide)

/-- Claim C4 amended: a Match entry is selected by Switch when its condition
is truthy per plain JavaScript truthiness, not per Show's emptiness-aware
predicate: a Match whose condition is an empty array, empty plain object or
empty Map/Set is selected (every object is truthy); only falsy primitives
are skipped; when the winning payload is a function it is invoked with the
condition value. -/
theorem c4_switch_truthiness_amended :
    (∀ (cond : JSValue) (payload : Rendable) (rest : List SwitchChild)
       (fallback : ResolvableNode),
       Switch (SwitchChild.matchE cond payload :: rest) fallback =
         if jsTruthy cond then applyRendable payload cond else Switch rest fallback)
    ∧ (∀ elems, jsTruthy (JSValue.vArray elems) = true)
    ∧ (∀ entries, jsTruthy (JSValue.vMapObj entries) = true)
    ∧ (∀ elems, jsTruthy (JSValue.vSetObj elems) = true)
    ∧ (∀ plainProto ownKeys, jsTruthy (JSValue.vObj plainProto ownKeys) = true)
    ∧ (∀ f v, applyRendable (Rendable.fn f) v = f v) :=
  ⟨fun _ _ _ _ => rfl, fun _ => rfl, fun _ => rfl, fun _ => rfl,
   fun _ _ => rfl, fun _ _ => rfl⟩

/-! ## For (For.tsx) -/

/-- The key React sees on a node, when the node is a valid element carrying
one (the `isValidElement(child) ? child.key : null` step). -/
def nodeKey : Node → Option Key
  | .tag _ _ key _ => key
  | .fragment key _ => some key
  | _ => none

/-- The sequence of values produced by the `items.map((item, i) => ...)`
loop of For: iteration runs over the reversed copy when `reverse` is set,
each call receives the original index `each.length - 1 - i` (plain `i`
otherwise) and the original array `each` as third argument. -/
def forEmissions {T N : Type} (each : List T) (reverse : Bool)
    (body : T → Nat → List T → N) : List N :=
  (if reverse then each.reverse else each).mapIdx
    (fun i item => body item (if reverse then each.length - 1 - i else i) each)

/-- Embedding of the For component from For.tsx.  A wrapper is an element
template `(name, attrs, key)`; `cloneElement(wrapper, {}, elements)` keeps
its attributes and key and replaces its contents. -/
def For {T : Type} (each : Option (List T)) (children : T → Nat → List T → Node)
    (keyExtractor : Option (T → Nat → Key)) (fallback : Node)
    (wrapper : Option (String × List (String × String) × Option Key))
    (reverse : Bool) : Node :=
  match each with
  | none => fallback
  | some l =>
      if l.length = 0 then fallback
      else
        let elements := forEmissions l reverse (fun item originalIndex arr =>
          let child := children item originalIndex arr
          let key :=
            match keyExtractor with
            | some ke => ke item originalIndex
            | none => (nodeKey child).getD (Key.num (Int.ofNat originalIndex))
          Node.fragment key child)
        match wrapper with
        | some (name, attrs, wkey) => Node.tag name attrs wkey elements
        | none => Node.listN elements

theorem forEmissions_false {T N : Type} (S : List T) (body : T → Nat → List T → N) :
    forEmissions S false body = S.mapIdx (fun i item => body item i S) := by
  simp [forEmissions]

theorem forEmissions_reverse {T N : Type} (S : List T) (body : T → Nat → List T → N) :
    forEmissions S true body = (forEmissions S false body).reverse := by
  apply List.ext_getElem
  · simp [forEmissions]
  · intro n h1 h2
    simp [forEmissions, List.mapIdx_eq_ofFn, List.getElem_reverse, List.getElem_ofFn]

/-- Claim C2: for every non-null, non-empty sequence S and both values of
the reverse flag, For passes to children the same multiset of
(item, originalIndex) pairs, where originalIndex is the index the element
holds in the unreversed sequence; the emission order under reverse is
exactly the reversal of the order without reverse; the third argument of
every call is the original sequence itself; and (the embedding being pure)
reversal is computed from a copy, the original sequence being what every
call receives. -/
theorem c2_for_reverse_pairs (T : Type) (S : List T) (hS : S ≠ []) :
    (∀ (N : Type) (body : T → Nat → List T → N),
       forEmissions S true body = (forEmissions S false body).reverse)
    ∧ ((forEmissions S true (fun item i _ => (item, i)) : Multiset (T × Nat))
        = (forEmissions S false (fun item i _ => (item, i)) : Multiset (T × Nat)))
    ∧ (forEmissions S false (fun item i _ => (item, i))
        = S.enum.map (fun p => (p.2, p.1)))
    ∧ (∀ reverse, forEmissions S reverse (fun _ _ arr => arr)
        = List.replicate S.length S) := by
  refine ⟨fun N body => forEmissions_reverse S body, ?_, ?_, ?_⟩
  · rw [forEmissions_reverse]
    exact Multiset.coe_reverse _
  · rw [forEmissions_false, List.mapIdx_eq_enum_map]
    apply List.map_congr_left
    intro p _
    cases p
    rfl
  · intro reverse
    cases reverse <;>
      simp [forEmissions, List.mapIdx_eq_ofFn, List.ofFn_const]

/-- Witness for c2_for_reverse_pairs at the concrete sequence [10, 20, 30]. -/
theorem c2_for_reverse_pairs_witness :
    ([10, 20, 30] : List Nat) ≠ []
    ∧ ((forEmissions [10, 20, 30] true (fun item i _ => (item, i)) : Multiset (Nat × Nat))
        = (forEmissions [10, 20, 30] false (fun item i _ => (item, i)) : Multiset (Nat × Nat))) :=
  ⟨by decide, (c2_for_reverse_pairs Nat [10, 20, 30] (by decide)).2.1⟩

/-! ## Repeat (Repeat.tsx) -/

/-- Embedding of the Repeat component from Repeat.tsx: only `times`,
`children` and `wrapper` exist; `times <= 0` returns null; otherwise a loop
pushes `<Fragment key={i}>{children(i)}</Fragment>` for i = 0 .. times-1. -/
def Repeat (times : Int) (children : Nat → Node)
    (wrapper : Option (String × List (String × String) × Option Key)) : Node :=
  if times ≤ 0 then Node.nullN
  else
    let elements := (List.range times.toNat).map
      (fun i => Node.fragment (Key.num (Int.ofNat i)) (children i))
    match wrapper with
    | some (name, attrs, wkey) => Node.tag name attrs wkey elements
    | none => Node.listN elements

/-- The Repeat of claim C5, written from the claim: it takes For's optional
keyExtractor, fallback, wrapper and reverse, materialises the index sequence
0 .. times-1 and delegates entirely to For (so times <= 0 gives For of an
empty sequence, which renders the fallback). -/
def repeatClaimC5 (times : Int) (children : Nat → Nat → List Nat → Node)
    (keyExtractor : Option (Nat → Nat → Key)) (fallback : Node)
    (wrapper : Option (String × List (String × String) × Option Key))
    (reverse : Bool) : Node :=
  For (some (List.range times.toNat)) children keyExtractor fallback wrapper reverse

/-- Claim C5 counterexample: the source Repeat has no fallback (nor
keyExtractor or reverse) and does not delegate to For: at times = 0 it
renders null, while the claimed For-delegating Repeat with a fallback
renders that fallback. -/
theorem c5_repeat_not_for :
    Repeat 0 (fun i => Node.text (toString i)) none = Node.nullN
    ∧ repeatClaimC5 0 (fun i _ _ => Node.text (toString i)) none
        (Node.text "empty") none false = Node.text "empty"
    ∧ Node.nullN ≠ Node.text "empty" :=
  ⟨rfl, rfl, fun h => Node.noConfusion h⟩

/-- Claim C5 amended: Repeat accepts only times, children and an optional
wrapper (no keyExtractor, fallback or reverse) and does not delegate to For;
when times <= 0 it renders nothing (there is no fallback); when
times = N > 0, children is invoked exactly once for each index 0 .. N-1, in
ascending order, the index serving as the emitted key; a wrapper element
wraps the emitted list. -/
theorem c5_repeat_amended (times : Int) (children : Nat → Node)
    (wrapper : Option (String × List (String × String) × Option Key)) :
    (times ≤ 0 → Repeat times children wrapper = Node.nullN)
    ∧ (0 < times →
        Repeat times children none =
          Node.listN ((List.range times.toNat).map
            (fun i => Node.fragment (Key.num (Int.ofNat i)) (children i))))
    ∧ (∀ name attrs wkey, 0 < times →
        Repeat times children (some (name, attrs, wkey)) =
          Node.tag name attrs wkey ((List.range times.toNat).map
            (fun i => Node.fragment (Key.num (Int.ofNat i)) (children i))))
    ∧ (∀ j : Nat, (j : Int) < times →
        ((List.range times.toNat).map
          (fun i => Node.fragment (Key.num (Int.ofNat i)) (children i)))[j]? =
          some (Node.fragment (Key.num (Int.ofNat j)) (children j))) := by
  refine ⟨fun h => by simp [Repeat, h], fun h => ?_, fun name attrs wkey h => ?_, fun j hj => ?_⟩
  · rw [Repeat, if_neg (by omega)]
  · rw [Repeat, if_neg (by omega)]
  · have hj2 : j < times.toNat := by omega
    simp [List.getElem?_map, List.getElem?_range, hj2]

/-- Witness for c5_repeat_amended at times = -1 and times = 2. -/
theorem c5_repeat_amended_witness :
    ((-1 : Int) ≤ 0 ∧ Repeat (-1) (fun i => Node.text (toString i)) none = Node.nullN)
    ∧ ((0 : Int) < 2 ∧ Repeat 2 (fun i => Node.text (toString i)) none =
        Node.listN ((List.range (2 : Int).toNat).map
          (fun i => Node.fragment (Key.num (Int.ofNat i))
            (Node.text (toString i))))) :=
  ⟨⟨by decide, (c5_repeat_amended (-1) (fun i => Node.text (toString i)) none).1 (by decide)⟩,
   ⟨by decide, (c5_repeat_amended 2 (fun i => Node.text (toString i)) none).2.1 (by decide)⟩⟩

/-! ## Split (Split.tsx)

The separator is a string or a RegExp.  The RegExp uses of the library (and
of the claim) are single-character classes such as \d, so a pattern is
embedded as a predicate on one character.  JavaScript String.split on a
string separator splits at every non-overlapping leftmost occurrence,
keeping empty pieces; with a capturing global pattern the matched separator
occurrences are spliced into the result. -/

/-- A separator: a literal string or a single-character pattern. -/
inductive Sep where
  | lit (s : String)
  | pat (p : Char → Bool)

/-- JavaScript String.split on a literal separator, over character lists.
The fuel argument (initialised to the length of the subject) only bounds
recursion; it never runs out because every step consumes at least one
character. -/
def jsSplitLitGo (sep : List Char) : Nat → List Char → List Char → List (List Char)
  | _, acc, [] => [acc.reverse]
  | 0, acc, s => [acc.reverse ++ s]
  | fuel + 1, acc, c :: rest =>
      if sep.isPrefixOf (c :: rest) then
        acc.reverse :: jsSplitLitGo sep fuel [] ((c :: rest).drop sep.length)
      else
        jsSplitLitGo sep fuel (c :: acc) rest

/-- JavaScript `s.split(sep)` for a string separator: the empty separator
splits into single characters, otherwise split on each occurrence, keeping
empty pieces. -/
def jsSplitLit (s sep : String) : List String :=
  if sep = "" then s.toList.map (fun c => String.mk [c])
  else (jsSplitLitGo sep.toList s.toList.length [] s.toList).map String.mk

/-- Worker for jsSplitPat. -/
def jsSplitPatGo (p : Char → Bool) (acc : List Char) : List Char → List (List Char)
  | [] => [acc.reverse]
  | c :: rest =>
      if p c then acc.reverse :: jsSplitPatGo p [] rest
      else jsSplitPatGo p (c :: acc) rest

/-- JavaScript `s.split(re)` for a single-character pattern without a
capturing group: pieces between matching characters, empty pieces kept. -/
def jsSplitPat (p : Char → Bool) (s : String) : List String :=
  (jsSplitPatGo p [] s.toList).map String.mk

/-- Worker for jsSplitPatKeep. -/
def jsSplitPatKeepGo (p : Char → Bool) (acc : List Char) : List Char → List (List Char)
  | [] => [acc.reverse]
  | c :: rest =>
      if p c then acc.reverse :: [c] :: jsSplitPatKeepGo p [] rest
      else jsSplitPatKeepGo p (c :: acc) rest

/-- JavaScript `s.split(re)` for a global single-character pattern with a
capturing group: each matching character is spliced into the result between
the surrounding pieces. -/
def jsSplitPatKeep (p : Char → Bool) (s : String) : List String :=
  (jsSplitPatKeepGo p [] s.toList).map String.mk

/-- Interleave the separator between consecutive pieces, as splitting on a
capturing group of the literal separator does. -/
def interleaveSep (sep : String) : List String → List String
  | [] => []
  | [x] => [x]
  | x :: y :: rest => x :: sep :: interleaveSep sep (y :: rest)

/-- Embedding of `splitString` from Split.tsx: a nullish or empty string
gives the empty array; with keepSeparator the separator is matched globally
with a capturing group and zero-length fragments are dropped; without it,
a standard split. -/
def splitString (string : Option String) (separator : Sep)
    (keepSeparator : Bool) : List String :=
  match string with
  | none => []
  | some s =>
      if s = "" then []
      else if keepSeparator then
        (match separator with
         | .lit sep => interleaveSep sep (jsSplitLit s sep)
         | .pat p => jsSplitPatKeep p s).filter (fun part => part ≠ "")
      else
        match separator with
        | .lit sep => jsSplitLit s sep
        | .pat p => jsSplitPat p s

/-- Embedding of the Split component from Split.tsx: split, then delegate
everything to For. -/
def Split (string : Option String) (separator : Sep) (keepSeparator : Bool)
    (children : String → Nat → List String → Node)
    (keyExtractor : Option (String → Nat → Key)) (fallback : Node)
    (wrapper : Option (String × List (String × String) × Option Key))
    (reverse : Bool) : Node :=
  For (some (splitString string separator keepSeparator))
    children keyExtractor fallback wrapper reverse

/-- Claim C7: the string-splitting step maps a nullish or empty string to
the empty sequence, so the Split component renders the For fallback; with
keepSeparator false it performs a standard split discarding separators;
with keepSeparator true every separator occurrence is kept as its own
element and zero-length fragments are dropped; concretely, splitting
9+5=(9+1)+4 on = keeping separators yields three parts with the = in the
middle, not keeping yields the two outer parts, and splitting a1b2c3 on the
digit pattern keeping separators yields the six alternating elements. -/
theorem c7_splitstring :
    (∀ separator keepSeparator,
       splitString none separator keepSeparator = [])
    ∧ (∀ separator keepSeparator,
       splitString (some "") separator keepSeparator = [])
    ∧ (∀ separator keepSeparator children keyExtractor fallback wrapper reverse,
       Split none separator keepSeparator children keyExtractor fallback
         wrapper reverse = fallback)
    ∧ splitString (some "9+5=(9+1)+4") (Sep.lit "=") true = ["9+5", "=", "(9+1)+4"]
    ∧ splitString (some "9+5=(9+1)+4") (Sep.lit "=") false = ["9+5", "(9+1)+4"]
    ∧ splitString (some "a1b2c3") (Sep.pat Char.isDigit) true
        = ["a", "1", "b", "2", "c", "3"] := by
  refine ⟨fun _ _ => rfl, fun s k => by simp [splitString], ?_, by decide, by decide, by decide⟩
  intro separator keepSeparator children keyExtractor fallback wrapper reverse
  simp [Split, splitString, For]

/-! ## QueryBoundary (QueryBoundary.tsx) -/

/-- The query result object: `data`, and the three optional boolean flags.
An absent `data` property reads as undefined. -/
structure QueryResult where
  data : JSValue
  isPending : Option Bool
  isError : Option Bool
  isEmptyFlag : Option Bool

/-- Truthiness of an optional boolean prop (`if (isPending)`). -/
def truthyOptBool : Option Bool → Bool
  | some b => b
  | none => false

/-- Embedding of `defaultIsEmpty` from QueryBoundary.tsx:
`data == null` catches null and undefined; `Array.isArray` gives the length
check; any other value of typeof object is judged by
`Object.keys(data).length` — for Map and Set instances the entries are not
own enumerable properties, so Object.keys is always empty and they are
always judged empty; there is no plain-prototype check. -/
def defaultIsEmpty : JSValue → Bool
  | .vNull => true
  | .vUndefined => true
  | .vArray elems => elems.isEmpty
  | .vMapObj _ => true
  | .vSetObj _ => true
  | .vObj _ ownKeys => ownKeys.isEmpty
  | _ => false

/-- Embedding of the QueryBoundary component from QueryBoundary.tsx. -/
def QueryBoundary (query : Option QueryResult) (whenProp : Bool)
    (loading errContent emptyContent : ResolvableNode) (children : Rendable)
    (isEmptyFn : JSValue → Bool) : Node :=
  match query with
  | none => Node.nullN
  | some q =>
      if !whenProp then Node.nullN
      else if truthyOptBool q.isPending then resolveNode loading
      else if truthyOptBool q.isError && isEmptyFn q.data then resolveNode errContent
      else if q.isEmptyFlag.getD (isEmptyFn q.data) then resolveNode emptyContent
      else applyRendable children q.data

/-- Claim C8: QueryBoundary renders by strict priority — nothing when the
when prop is false or the query is absent; else loading while pending
(pending beats error); else error only when isError holds and isEmptyFn
accepts the data, so non-empty cached data suppresses the error view; else
the empty view when the explicit isEmpty flag (preferred whenever present)
or isEmptyFn indicates emptiness; else children, invoked with the data. -/
theorem c8_queryboundary
    (loading errContent emptyContent : ResolvableNode) (children : Rendable)
    (isEmptyFn : JSValue → Bool) :
    (∀ query, QueryBoundary query false loading errContent emptyContent
        children isEmptyFn = Node.nullN)
    ∧ (∀ whenProp, QueryBoundary none whenProp loading errContent emptyContent
        children isEmptyFn = Node.nullN)
    ∧ (∀ q, truthyOptBool q.isPending = true →
        QueryBoundary (some q) true loading errContent emptyContent children
          isEmptyFn = resolveNode loading)
    ∧ (∀ q, truthyOptBool q.isPending = false →
        truthyOptBool q.isError = true → isEmptyFn q.data = true →
        QueryBoundary (some q) true loading errContent emptyContent children
          isEmptyFn = resolveNode errContent)
    ∧ (∀ q, truthyOptBool q.isPending = false →
        (truthyOptBool q.isError && isEmptyFn q.data) = false →
        q.isEmptyFlag.getD (isEmptyFn q.data) = true →
        QueryBoundary (some q) true loading errContent emptyContent children
          isEmptyFn = resolveNode emptyContent)
    ∧ (∀ q, truthyOptBool q.isPending = false →
        (truthyOptBool q.isError && isEmptyFn q.data) = false →
        q.isEmptyFlag.getD (isEmptyFn q.data) = false →
        QueryBoundary (some q) true loading errContent emptyContent children
          isEmptyFn = applyRendable children q.data)
    ∧ (∀ (q : QueryResult) (b : Bool), q.isEmptyFlag = some b →
        q.isEmptyFlag.getD (isEmptyFn q.data) = b) := by
  refine ⟨?_, fun _ => rfl, ?_, ?_, ?_, ?_, ?_⟩
  · intro query
    cases query <;> rfl
  · intro q h
    simp [QueryBoundary, h]
  · intro q h1 h2 h3
    simp [QueryBoundary, h1, h2, h3]
  · intro q h1 h2 h3
    simp [QueryBoundary, h1, h2, h3]
  · intro q h1 h2 h3
    simp [QueryBoundary, h1, h2, h3]
  · intro q b h
    rw [h]
    rfl

/-- Witness for c8_queryboundary on the three scenarios of the spec:
pending with error renders loading; error with non-empty cached data
renders children; error with the explicit empty flag and no data renders
the error view. -/
theorem c8_queryboundary_witness :
    QueryBoundary (some ⟨JSValue.vUndefined, some true, some true, none⟩) true
        (ResolvableNode.node (Node.text "loading")) (ResolvableNode.node (Node.text "error"))
        (ResolvableNode.node (Node.text "empty")) (Rendable.node (Node.text "children"))
        defaultIsEmpty = Node.text "loading"
    ∧ QueryBoundary (some ⟨JSValue.vArray [JSValue.vStr "cached"], none, some true, none⟩) true
        (ResolvableNode.node (Node.text "loading")) (ResolvableNode.node (Node.text "error"))
        (ResolvableNode.node (Node.text "empty")) (Rendable.node (Node.text "children"))
        defaultIsEmpty = Node.text "children"
    ∧ QueryBoundary (some ⟨JSValue.vUndefined, none, some true, some true⟩) true
        (ResolvableNode.node (Node.text "loading")) (ResolvableNode.node (Node.text "error"))
        (ResolvableNode.node (Node.text "empty")) (Rendable.node (Node.text "children"))
        defaultIsEmpty = Node.text "error" :=
  ⟨(c8_queryboundary (ResolvableNode.node (Node.text "loading"))
      (ResolvableNode.node (Node.text "error")) (ResolvableNode.node (Node.text "empty"))
      (Rendable.node (Node.text "children")) defaultIsEmpty).2.2.1
      ⟨JSValue.vUndefined, some true, some true, none⟩ rfl,
   (c8_queryboundary (ResolvableNode.node (Node.text "loading"))
      (ResolvableNode.node (Node.text "error")) (ResolvableNode.node (Node.text "empty"))
      (Rendable.node (Node.text "children")) defaultIsEmpty).2.2.2.2.2.1
      ⟨JSValue.vArray [JSValue.vStr "cached"], none, some true, none⟩ rfl rfl rfl,
   (c8_queryboundary (ResolvableNode.node (Node.text "loading"))
      (ResolvableNode.node (Node.text "error")) (ResolvableNode.node (Node.text "empty"))
      (Rendable.node (Node.text "children")) defaultIsEmpty).2.2.2.1
      ⟨JSValue.vUndefined, none, some true, some true⟩ rfl rfl rfl⟩

/-- The data-only EmptinessPredicate exactly as claim C9 states it:
null and undefined are empty; a sequence is empty iff it has zero length; a
plain keyed mapping is empty iff it has zero own keys; every other value —
including non-empty Map and Set instances and other non-plain objects — is
not empty. -/
def claimIsEmptyC9 : JSValue → Bool
  | .vNull => true
  | .vUndefined => true
  | .vArray elems => elems.isEmpty
  | .vObj true ownKeys => ownKeys.isEmpty
  | _ => false

/-- Claim C9 counterexample: on a non-empty Map, defaultIsEmpty answers
true — `typeof data === "object"` matches a Map and Object.keys of a Map is
always empty — while the claimed predicate answers false. -/
theorem c9_defaultisempty_map :
    defaultIsEmpty (JSValue.vMapObj [(JSValue.vStr "a", JSValue.vNum 1)]) = true
    ∧ claimIsEmptyC9 (JSValue.vMapObj [(JSValue.vStr "a", JSValue.vNum 1)]) = false :=
  ⟨rfl, rfl⟩

/-- The emptiness classification claim C9 amended to what the source does:
null and undefined are empty; an array is empty iff it has zero length; any
other object — Map and Set instances, which expose no own enumerable keys,
as well as plain and non-plain objects — is empty iff it has zero own
enumerable keys, so every Map and Set is judged empty regardless of size;
all remaining values are not empty. -/
def claimIsEmptyC9Amended : JSValue → Bool
  | .vNull => true
  | .vUndefined => true
  | .vArray elems => elems.isEmpty
  | .vMapObj _ => true
  | .vSetObj _ => true
  | .vObj _ ownKeys => ownKeys.isEmpty
  | .vBool _ => false
  | .vNum _ => false
  | .vNaN => false
  | .vStr _ => false

/-- Claim C9 amended (see claimIsEmptyC9Amended): the default isEmptyFn
implements exactly that classification. -/
theorem c9_defaultisempty_amended (v : JSValue) :
    defaultIsEmpty v = claimIsEmptyC9Amended v := by
  cases v <;> rfl

/-! ## Await (Await.tsx)

Await keeps a PromiseState in useState and runs an effect on each change of
the promise prop.  The effect for a non-promise input sets the state to
fulfilled synchronously inside the step; the effect for a promise input
resets the state to pending, captures a fresh `cancelled` closure flag, and
attaches then/catch continuations guarded by that flag.  React runs the
cleanup of the previous effect — which sets the previous flag — before the
next effect, so the flag of generation g is still unset exactly when g is
the current generation.  The machine below numbers input changes with `gen`
and records whether the current input was a promise; a settle event carries
the generation of the promise whose continuation runs and applies its
transition only when that generation is still current. -/

/-- The `PromiseState` union of Await.tsx. -/
inductive PromiseState (T E : Type) where
  | pending
  | fulfilled (value : T)
  | rejected (error : E)
deriving DecidableEq, Repr

/-- Await component state: the PromiseState, the generation of the current
promise prop, and whether that prop was a promise. -/
structure AwaitM (T E : Type) where
  state : PromiseState T E
  gen : Nat
  genIsPromise : Bool
deriving DecidableEq, Repr

/-- Events driving Await: a change of the promise prop to a plain value or
to a promise (the effect runs as part of the event), or a continuation of
the promise of generation g settling. -/
inductive AwaitEvent (T E : Type) where
  | inputValue (v : T)
  | inputPromise
  | settleFulfilled (g : Nat) (v : T)
  | settleRejected (g : Nat) (e : E)
deriving DecidableEq, Repr

/-- The initial useState value: a non-promise prop starts fulfilled
immediately and synchronously, a promise starts pending. -/
def awaitInit {T E : Type} : Option T → AwaitM T E
  | some v => ⟨PromiseState.fulfilled v, 0, false⟩
  | none => ⟨PromiseState.pending, 0, true⟩

/-- One step of the Await machine.  An input change advances the
generation (the cleanup of the previous effect sets the previous cancelled
flag); a settle event applies its transition only when its generation is
the current one and that generation attached continuations. -/
def awaitStep {T E : Type} (m : AwaitM T E) : AwaitEvent T E → AwaitM T E
  | .inputValue v => ⟨PromiseState.fulfilled v, m.gen + 1, false⟩
  | .inputPromise => ⟨PromiseState.pending, m.gen + 1, true⟩
  | .settleFulfilled g v =>
      if g = m.gen ∧ m.genIsPromise then { m with state := PromiseState.fulfilled v } else m
  | .settleRejected g e =>
      if g = m.gen ∧ m.genIsPromise then { m with state := PromiseState.rejected e } else m

/-- Run the machine over a list of events. -/
def awaitRun {T E : Type} (m : AwaitM T E) (events : List (AwaitEvent T E)) : AwaitM T E :=
  events.foldl awaitStep m

/-- Whether an event is a settle event (no input change). -/
def isSettle {T E : Type} : AwaitEvent T E → Bool
  | .settleFulfilled _ _ => true
  | .settleRejected _ _ => true
  | _ => false

/-- The generation a settle event belongs to. -/
def settleGen {T E : Type} : AwaitEvent T E → Option Nat
  | .settleFulfilled g _ => some g
  | .settleRejected g _ => some g
  | _ => none

/-- The rendering of Await per state: loading while pending, the error
renderer on rejection, children on fulfilment. -/
def awaitRender {T E : Type} (m : AwaitM T E) (loading : ResolvableNode)
    (errContent : Node ⊕ (E → Node)) (children : Node ⊕ (T → Node)) : Node :=
  match m.state with
  | .pending => resolveNode loading
  | .rejected e =>
      match errContent with
      | .inl n => n
      | .inr f => f e
  | .fulfilled v =>
      match children with
      | .inl n => n
      | .inr f => f v

theorem awaitRun_append {T E : Type} (m : AwaitM T E)
    (l1 l2 : List (AwaitEvent T E)) :
    awaitRun m (l1 ++ l2) = awaitRun (awaitRun m l1) l2 :=
  List.foldl_append ..

/-- A settle event never changes the generation bookkeeping. -/
theorem awaitStep_settle_gen {T E : Type} (m : AwaitM T E) (e : AwaitEvent T E)
    (he : isSettle e = true) :
    (awaitStep m e).gen = m.gen ∧ (awaitStep m e).genIsPromise = m.genIsPromise := by
  cases e with
  | inputValue v => exact absurd he (by simp [isSettle])
  | inputPromise => exact absurd he (by simp [isSettle])
  | settleFulfilled g v =>
      by_cases h : g = m.gen ∧ m.genIsPromise <;> simp [awaitStep, h]
  | settleRejected g e =>
      by_cases h : g = m.gen ∧ m.genIsPromise <;> simp [awaitStep, h]

/-- If the current input is not a promise, settle events never change the
state. -/
theorem awaitRun_settles_value {T E : Type} (m : AwaitM T E)
    (events : List (AwaitEvent T E)) (hall : events.all isSettle = true)
    (hip : m.genIsPromise = false) :
    awaitRun m events = m := by
  induction events generalizing m with
  | nil => rfl
  | cons e rest ih =>
      simp only [List.all_cons, Bool.and_eq_true] at hall
      have hstep : awaitStep m e = m := by
        cases e with
        | inputValue v => simp [isSettle] at hall
        | inputPromise => simp [isSettle] at hall
        | settleFulfilled g v => simp [awaitStep, hip]
        | settleRejected g e => simp [awaitStep, hip]
      show awaitRun (awaitStep m e) rest = m
      rw [hstep]
      exact ih m hall.2 hip

/-- Settle events for a generation other than the current one are dropped:
running a settle-only trace is the same as running only the settles of the
current generation. -/
theorem awaitRun_filter_stale {T E : Type} (m : AwaitM T E)
    (events : List (AwaitEvent T E)) (hall : events.all isSettle = true) :
    awaitRun m events
      = awaitRun m (events.filter (fun e => settleGen e == some m.gen)) := by
  induction events generalizing m with
  | nil => rfl
  | cons e rest ih =>
      simp only [List.all_cons, Bool.and_eq_true] at hall
      have hgen := awaitStep_settle_gen m e hall.1
      by_cases hg : (settleGen e == some m.gen) = true
      · rw [List.filter_cons, if_pos hg]
        show awaitRun (awaitStep m e) rest = awaitRun (awaitStep m e) _
        rw [ih (awaitStep m e) hall.2, hgen.1]
      · rw [List.filter_cons, if_neg hg]
        have hid : awaitStep m e = m := by
          cases e with
          | inputValue v => simp [isSettle] at hall
          | inputPromise => simp [isSettle] at hall
          | settleFulfilled g v =>
              have : ¬ g = m.gen := by simpa [settleGen] using hg
              simp [awaitStep, this]
          | settleRejected g e =>
              have : ¬ g = m.gen := by simpa [settleGen] using hg
              simp [awaitStep, this]
        show awaitRun (awaitStep m e) rest = _
        rw [hid]
        exact ih m hall.2

/-- Claim C1: the Await state follows the AsyncState lifecycle.  A
non-promise input makes the state fulfilled immediately within the same
step, both at mount and on change; a promise input makes the state pending;
a settle continuation belonging to an input generation that has since been
replaced never applies its transition; consequently, for every sequence of
input changes, after the last input the state is exactly fulfilled of that
value when the last input was a plain value, whatever stale settles arrive,
and when the last input was a promise the state is computed from the
settle events of that promise alone, the settles of all earlier inputs
being dropped. -/
theorem c1_await_race (T E : Type) :
    (∀ (v : T), (awaitInit (E := E) (some v)).state = PromiseState.fulfilled v)
    ∧ ((awaitInit (T := T) (E := E) none).state = PromiseState.pending)
    ∧ (∀ (m : AwaitM T E) (v : T),
        (awaitStep m (AwaitEvent.inputValue v)).state = PromiseState.fulfilled v)
    ∧ (∀ (m : AwaitM T E),
        (awaitStep m AwaitEvent.inputPromise).state = PromiseState.pending)
    ∧ (∀ (m : AwaitM T E) (g : Nat) (v : T), g ≠ m.gen →
        awaitStep m (AwaitEvent.settleFulfilled g v) = m)
    ∧ (∀ (m : AwaitM T E) (g : Nat) (e : E), g ≠ m.gen →
        awaitStep m (AwaitEvent.settleRejected g e) = m)
    ∧ (∀ (init : AwaitM T E) (pre post : List (AwaitEvent T E)) (v : T),
        post.all isSettle = true →
        (awaitRun init (pre ++ AwaitEvent.inputValue v :: post)).state
          = PromiseState.fulfilled v)
    ∧ (∀ (init : AwaitM T E) (pre post : List (AwaitEvent T E)),
        post.all isSettle = true →
        awaitRun init (pre ++ AwaitEvent.inputPromise :: post)
          = awaitRun (awaitRun init (pre ++ [AwaitEvent.inputPromise]))
              (post.filter (fun e =>
                settleGen e == some (awaitRun init (pre ++ [AwaitEvent.inputPromise])).gen))) := by
  refine ⟨fun v => rfl, rfl, fun m v => rfl, fun m => rfl, ?_, ?_, ?_, ?_⟩
  · intro m g v hg
    simp [awaitStep, hg]
  · intro m g e hg
    simp [awaitStep, hg]
  · intro init pre post v hall
    rw [awaitRun_append]
    show (awaitRun (awaitStep (awaitRun init pre) (AwaitEvent.inputValue v)) post).state = _
    rw [awaitRun_settles_value _ post hall rfl]
    rfl
  · intro init pre post hall
    have h1 : awaitRun init (pre ++ [AwaitEvent.inputPromise])
        = awaitStep (awaitRun init pre) AwaitEvent.inputPromise := by
      rw [awaitRun_append]
      rfl
    rw [awaitRun_append, h1]
    show awaitRun (awaitStep (awaitRun init pre) AwaitEvent.inputPromise) post = _
    exact awaitRun_filter_stale _ post hall

/-- Witness for c1_await_race: a promise input (generation 0) is replaced
by a promise input (generation 1) and then by the plain value 5
(generation 2); the stale continuations of generations 0 and 1 settle
afterwards with other values and are suppressed, so the state stays
fulfilled 5. -/
theorem c1_await_race_witness :
    ([AwaitEvent.settleFulfilled 0 99, AwaitEvent.settleFulfilled 1 98,
      AwaitEvent.settleRejected 1 7].all (isSettle (T := Nat) (E := Nat)) = true)
    ∧ (awaitRun (awaitInit (T := Nat) (E := Nat) none)
        ([AwaitEvent.inputPromise] ++ AwaitEvent.inputValue 5 ::
          [AwaitEvent.settleFulfilled 0 99, AwaitEvent.settleFulfilled 1 98,
           AwaitEvent.settleRejected 1 7])).state = PromiseState.fulfilled 5 :=
  ⟨by decide,
   (c1_await_race Nat Nat).2.2.2.2.2.2.1 (awaitInit none)
     [AwaitEvent.inputPromise]
     [AwaitEvent.settleFulfilled 0 99, AwaitEvent.settleFulfilled 1 98,
      AwaitEvent.settleRejected 1 7]
     5 (by decide)⟩

/-! ## Visible (Visible.tsx)

The observer callback sets isVisible to the notified value, marks
hasBeenVisible on an intersecting notification, and with `once` disconnects
the observer, after which no further notification is delivered (modelled by
`observing = false` making notifications no-ops).  Rendering wraps the
gated content in the anchor div; with `once` the gate is hasBeenVisible,
otherwise isVisible. -/

/-- Visible component state after hydration, in the supported environment:
current intersection, whether it has ever intersected, and whether the
observer is still attached. -/
structure VisibleM where
  isVisible : Bool
  hasBeenVisible : Bool
  observing : Bool
deriving DecidableEq, Repr

/-- State at mount: not yet visible, observer attached. -/
def visibleInit : VisibleM :=
  ⟨false, false, true⟩

/-- One intersection notification.  A detached observer delivers nothing. -/
def visibleNotify (once : Bool) (m : VisibleM) (intersecting : Bool) : VisibleM :=
  if m.observing then
    { isVisible := intersecting
      hasBeenVisible := m.hasBeenVisible || intersecting
      observing := if intersecting && once then false else m.observing }
  else m

/-- Run the machine over a list of notifications. -/
def visibleRun (once : Bool) (m : VisibleM) (notifs : List Bool) : VisibleM :=
  notifs.foldl (visibleNotify once) m

/-- The rendering of Visible in the supported client environment: the
anchor div holding children when the gate is open — hasBeenVisible under
`once`, the current isVisible otherwise — and the fallback when not. -/
def visibleRender (once : Bool) (m : VisibleM) (children : Node)
    (fallback : ResolvableNode) : Node :=
  Node.tag "div" [] none
    [if (if once then m.hasBeenVisible else m.isVisible) then children
     else resolveNode fallback]

/-- A state with a detached observer never changes again. -/
theorem visibleRun_frozen (once : Bool) (m : VisibleM) (notifs : List Bool)
    (h : m.observing = false) :
    visibleRun once m notifs = m := by
  induction notifs with
  | nil => rfl
  | cons b rest ih =>
      show visibleRun once (visibleNotify once m b) rest = m
      rw [visibleNotify, if_neg (by simp [h]), ih]

/-- Reachability invariant under `once`: the observer only ever detaches on
an intersecting notification, so a detached state has seen one. -/
theorem visibleRun_once_inv (notifs : List Bool) (m : VisibleM)
    (h : m.observing = false → m.hasBeenVisible = true) :
    (visibleRun true m notifs).observing = false →
      (visibleRun true m notifs).hasBeenVisible = true := by
  induction notifs generalizing m with
  | nil => exact h
  | cons b rest ih =>
      show (visibleRun true (visibleNotify true m b) rest).observing = false → _
      apply ih
      rw [visibleNotify]
      by_cases hobs : m.observing = true
      · rw [if_pos hobs]
        cases b <;> simp [hobs]
      · rw [if_neg hobs]
        exact h

/-- With once false the observer never detaches. -/
theorem visibleRun_keeps_observing (m : VisibleM) (notifs : List Bool)
    (h : m.observing = true) :
    (visibleRun false m notifs).observing = true := by
  induction notifs generalizing m with
  | nil => exact h
  | cons b rest ih =>
      show (visibleRun false (visibleNotify false m b) rest).observing = true
      apply ih
      rw [visibleNotify]
      by_cases hobs : m.observing = true
      · rw [if_pos hobs]
        simp [h]
      · exact absurd h hobs

/-- Claim C10: with once = true, the first intersecting notification
detaches the observer and children stay rendered permanently, whatever
notifications could still arrive; with once = false, observation continues
and the output follows the latest notification — children after an
intersecting one, the fallback again after a not-intersecting one. -/
theorem c10_visible (pre post : List Bool) (children : Node)
    (fallback : ResolvableNode) :
    ((visibleNotify true (visibleRun true visibleInit pre) true).observing = false)
    ∧ ((visibleRun true (visibleNotify true (visibleRun true visibleInit pre) true)
          post).hasBeenVisible = true)
    ∧ (visibleRender true
          (visibleRun true (visibleNotify true (visibleRun true visibleInit pre) true) post)
          children fallback = Node.tag "div" [] none [children])
    ∧ (∀ b, (visibleRun false visibleInit (pre ++ [b])).observing = true)
    ∧ (∀ b, visibleRender false (visibleRun false visibleInit (pre ++ [b]))
          children fallback
          = Node.tag "div" [] none [if b then children else resolveNode fallback]) := by
  have hfreeze : (visibleNotify true (visibleRun true visibleInit pre) true).observing = false := by
    rw [visibleNotify]
    by_cases hobs : (visibleRun true visibleInit pre).observing = true
    · rw [if_pos hobs]
      simp
    · rw [if_neg hobs]
      simpa using hobs
  have hseen : (visibleNotify true (visibleRun true visibleInit pre) true).hasBeenVisible = true := by
    rw [visibleNotify]
    by_cases hobs : (visibleRun true visibleInit pre).observing = true
    · rw [if_pos hobs]
      simp
    · rw [if_neg hobs]
      have hinv := visibleRun_once_inv pre visibleInit (by intro h; simp [visibleInit] at h)
      exact hinv (by simpa using hobs)
  have hpost := visibleRun_frozen true
    (visibleNotify true (visibleRun true visibleInit pre) true) post hfreeze
  refine ⟨hfreeze, ?_, ?_, ?_, ?_⟩
  · rw [hpost]
    exact hseen
  · rw [visibleRender, hpost]
    simp [hseen]
  · intro b
    rw [visibleRun, List.foldl_append]
    show (visibleNotify false (visibleRun false visibleInit pre) b).observing = true
    have hobs := visibleRun_keeps_observing visibleInit pre rfl
    rw [visibleNotify, if_pos hobs]
    simp [hobs]
  · intro b
    rw [visibleRender, visibleRun, List.foldl_append]
    have hobs := visibleRun_keeps_observing visibleInit pre rfl
    show Node.tag "div" [] none
        [if (visibleNotify false (visibleRun false visibleInit pre) b).isVisible
         then children else resolveNode fallback] = _
    rw [visibleNotify, if_pos hobs]

end ReactSolid
